import Mathlib

/-!
Verification of the disclaude conversation-turn orchestrator.

Shallow embedding of the orchestration logic of the repository:
  * src/utils/tokenCounter.ts   (countMessageTokens, trimMessagesToTokenLimit)
  * src/services/contextManager.ts (ChannelContext map, startMonitoring,
    stopMonitoring, shouldRespond, incrementFollowUpCount and the
    setTimeout-driven deactivation)
  * src/services/claude.ts      (formatDiscordMessages, generateResponse as an
    oracle, the tool declarations)
  * src/handlers/messageHandler.ts (handleMessage follow-up path,
    handleToolExecution, splitMessage)

External effects (the Anthropic API, the Discord client, file and web I/O)
are modelled as explicit oracles passed to the embedded functions; machine
integers of the source are JS doubles used only as small non-negative counts
and timestamps, embedded as Nat.
-/

/-- Role string of a chat message ("user" / "assistant"), as in the TS code
where roles are plain strings. -/
abbrev Role := String

/-- One typed content block of a message, mirroring the duck-typed block
objects the TS code builds: text blocks, image blocks, the tool_use blocks a
model response carries and the tool_result blocks pushed back to the model.
`other` stands for any block type the code does not inspect. -/
inductive ContentBlock where
  | text (t : String)
  | image
  | toolUse (id name : String)
  | toolResult (id content : String)
  | other
deriving Repr, DecidableEq

/-- Message content: a plain string or an array of content blocks
(`string | any[]` in tokenCounter.ts). -/
inductive MsgContent where
  | str (s : String)
  | blocks (bs : List ContentBlock)
deriving Repr, DecidableEq

/-- One message of the running list passed to the model
(`{ role: string; content: string | any[] }`). -/
structure ChatMsg where
  role : Role
  content : MsgContent
deriving Repr, DecidableEq

/-- A pending tool call taken from a model response
(`tool_use` block: correlation id, tool name, model-supplied input,
stringified). -/
structure ToolCall where
  id : String
  name : String
  input : String
deriving Repr, DecidableEq

/-- A tool result pushed back to the model, correlated by `tool_use_id`
(messageHandler.ts builds `{ tool_use_id, content }` records). -/
structure ToolResult where
  toolUseId : String
  content : String
deriving Repr, DecidableEq

/-- Outcome of one `generateResponse` call (claude.ts): either a final text
answer or a request to run custom tools
(`string | { needsTools: true; toolCalls: any[] }`). -/
inductive ModelResponse where
  | text (s : String)
  | tools (tcs : List ToolCall)
deriving Repr, DecidableEq

/-- The model API as an oracle: given the running message list and the
`enableTools` flag, produce the response `generateResponse` would return. -/
abbrev Model := List ChatMsg → Bool → ModelResponse

/-- The external tool collaborators (repo reader, url fetcher, Discord
history) as an oracle: `.ok s` is the content the try-block produces,
`.error e` is a thrown exception (stringified), caught by the per-call
catch in messageHandler.ts. -/
abbrev ExecFn := ToolCall → Except String String

/-- The tokenizer (`countTokens` of tokenCounter.ts) as an abstract
deterministic token-count function on strings. -/
abbrev TokenFn := String → Nat

/-! ## tokenCounter.ts -/

/-- Token estimate of one content value: text counted by the tokenizer, a
flat 1500-token surcharge per image block, 0 for block types the code does
not inspect (tokenCounter.ts countMessageTokens, content part). -/
def contentTokens (ct : TokenFn) : MsgContent → Nat
  | .str s => ct s
  | .blocks bs => bs.foldl (fun acc b =>
      match b with
      | .text t => acc + ct t
      | .image => acc + 1500
      | _ => acc) 0

/-- Token estimate of a single message: 4 tokens structural overhead, plus
the role tokens, plus the content tokens. -/
def msgTokens (ct : TokenFn) (m : ChatMsg) : Nat :=
  4 + ct m.role + contentTokens ct m.content

/-- `countMessageTokens`: total estimate of a message list (tokenCounter.ts
lines 23-51), accumulated left to right as in the source loop. -/
def countMessageTokens (ct : TokenFn) (msgs : List ChatMsg) : Nat :=
  msgs.foldl (fun acc m => acc + msgTokens ct m) 0

/-- The backwards walk of `trimMessagesToTokenLimit` (lines 70-80): the
argument list is the older messages **newest first** (the source iterates
`i` from `olderMessages.length - 1` down to `0`), `cur` is the running token
count seeded with the preserved tail's estimate.  Messages are kept while
the cumulative estimate stays within the budget; the first message that
would exceed it stops the walk (`break`).  The result is returned in
original (oldest-first) order, as built by the source's `unshift`. -/
def keepOlder (ct : TokenFn) (budget : Nat) : List ChatMsg → Nat → List ChatMsg
  | [], _ => []
  | m :: rest, cur =>
    if cur + countMessageTokens ct [m] ≤ budget then
      keepOlder ct budget rest (cur + countMessageTokens ct [m]) ++ [m]
    else []

/-- The synthetic notice inserted when older messages were dropped
(tokenCounter.ts lines 83-89). -/
def contextNote (skipped : Nat) : ChatMsg :=
  ⟨"user", .str ("[Context Note: " ++ toString skipped ++
    " earlier messages were trimmed to fit token limit]")⟩

/-- `trimMessagesToTokenLimit(messages, maxTokens, preserveLatest)`
(tokenCounter.ts lines 53-92).  JS `slice(-k)` / `slice(0, -k)` select the
last `k` / all-but-last `k` elements for `k ≥ 1`; for `k = 0`, `-0 === 0`,
so `slice(-0)` is the whole array and `slice(0, -0)` is empty — hence the
`cut` computation below. -/
def trimMessagesToTokenLimit (ct : TokenFn) (messages : List ChatMsg)
    (maxTokens : Nat) (preserveLatest : Nat) : List ChatMsg :=
  if messages.length ≤ preserveLatest then messages
  else
    let cut := if preserveLatest = 0 then 0 else messages.length - preserveLatest
    let latestMessages := messages.drop cut
    let olderMessages := messages.take cut
    let trimmedMessages :=
      keepOlder ct maxTokens olderMessages.reverse (countMessageTokens ct latestMessages)
    let withNote :=
      if trimmedMessages.length < olderMessages.length then
        contextNote (olderMessages.length - trimmedMessages.length) :: trimmedMessages
      else trimmedMessages
    withNote ++ latestMessages

/-! ### tokenCounter lemmas -/

theorem countMessageTokens_eq_sum (ct : TokenFn) (msgs : List ChatMsg) :
    countMessageTokens ct msgs = (msgs.map (msgTokens ct)).sum := by
  suffices h : ∀ n, msgs.foldl (fun acc m => acc + msgTokens ct m) n
      = n + (msgs.map (msgTokens ct)).sum by
    simpa [countMessageTokens] using h 0
  induction msgs with
  | nil => intro n; simp
  | cons m rest ih =>
    intro n
    simp [List.foldl_cons, ih, List.map_cons, List.sum_cons]
    omega

theorem countMessageTokens_append (ct : TokenFn) (a b : List ChatMsg) :
    countMessageTokens ct (a ++ b) = countMessageTokens ct a + countMessageTokens ct b := by
  simp [countMessageTokens_eq_sum]

theorem countMessageTokens_single (ct : TokenFn) (m : ChatMsg) :
    countMessageTokens ct [m] = msgTokens ct m := by
  simp [countMessageTokens_eq_sum]

/-- If the seed plus the total estimate of the walked messages fits the
budget, the walk keeps every message (returning them in original order). -/
theorem keepOlder_all (ct : TokenFn) (budget : Nat) (l : List ChatMsg) :
    ∀ cur, cur + (l.map (msgTokens ct)).sum ≤ budget →
      keepOlder ct budget l cur = l.reverse := by
  induction l with
  | nil => intro cur _; simp [keepOlder]
  | cons m rest ih =>
    intro cur h
    simp only [List.map_cons, List.sum_cons] at h
    have hfit : cur + countMessageTokens ct [m] ≤ budget := by
      rw [countMessageTokens_single]; omega
    have hrest : cur + countMessageTokens ct [m] + (rest.map (msgTokens ct)).sum ≤ budget := by
      rw [countMessageTokens_single]; omega
    simp [keepOlder, hfit, ih _ hrest]

/-! ## contextManager.ts -/

/-- `ChannelContext` (contextManager.ts lines 4-8). -/
structure ChannelContext where
  lastResponseTime : Nat
  followUpCount : Nat
  isMonitoring : Bool
deriving Repr, DecidableEq

/-- The `channelContexts` map, keyed by channel id. -/
abbrev CtxMap := List (Nat × ChannelContext)

/-- `Map.set`: replace the entry for `k`, or append a fresh one. -/
def mapSet (k : Nat) (v : ChannelContext) : CtxMap → CtxMap
  | [] => [(k, v)]
  | (k0, v0) :: rest =>
    if k0 = k then (k, v) :: rest else (k0, v0) :: mapSet k v rest

/-- `Map.get`. -/
def mapGet (k : Nat) : CtxMap → Option ChannelContext
  | [] => none
  | (k0, v0) :: rest => if k0 = k then some v0 else mapGet k rest

/-- The ContextManager state: the channelContexts map together with the
pending `setTimeout` callbacks scheduled by `startMonitoring`, each recorded
as (fire time, channel id).  The source never cancels a scheduled timeout,
so scheduling only ever appends to this list. -/
structure CMState where
  channelContexts : CtxMap
  pendingTimers : List (Nat × Nat)
deriving Repr, DecidableEq

/-- `stopMonitoring(channelId)` on the raw map (contextManager.ts lines
40-45): clear `isMonitoring` if an entry exists. -/
def stopMonitoringMap (channelId : Nat) (m : CtxMap) : CtxMap :=
  match mapGet channelId m with
  | none => m
  | some ctx => mapSet channelId { ctx with isMonitoring := false } m

/-- `stopMonitoring(channelId)`. -/
def stopMonitoring (channelId : Nat) (st : CMState) : CMState :=
  { st with channelContexts := stopMonitoringMap channelId st.channelContexts }

/-- `startMonitoring(channelId)` (contextManager.ts lines 27-38): install a
fresh context (count 0, monitoring) and schedule a `stopMonitoring` callback
at `now + followUpTimeoutMs`.  The previously scheduled callback, if any, is
**not** cancelled: the source's `setTimeout` handle is dropped. -/
def startMonitoring (now timeoutMs channelId : Nat) (st : CMState) : CMState :=
  { channelContexts :=
      mapSet channelId ⟨now, 0, true⟩ st.channelContexts,
    pendingTimers := st.pendingTimers ++ [(now + timeoutMs, channelId)] }

/-- `isMonitoringChannel(channelId)` (lines 47-50). -/
def isMonitoringChannel (channelId : Nat) (st : CMState) : Bool :=
  match mapGet channelId st.channelContexts with
  | some ctx => ctx.isMonitoring
  | none => false

/-- `shouldRespond(channelId)` (lines 52-65).  Returns the boolean together
with the possibly mutated state: when the follow-up cap has been reached it
calls `stopMonitoring` as a side effect before returning false. -/
def shouldRespond (followUpMessageCount channelId : Nat) (st : CMState) :
    Bool × CMState :=
  match mapGet channelId st.channelContexts with
  | none => (false, st)
  | some ctx =>
    if ctx.isMonitoring = false then (false, st)
    else if followUpMessageCount ≤ ctx.followUpCount then
      (false, stopMonitoring channelId st)
    else (true, st)

/-- `incrementFollowUpCount(channelId)` (lines 67-73): bump the counter and
refresh `lastResponseTime` to the current clock. -/
def incrementFollowUpCount (now channelId : Nat) (st : CMState) : CMState :=
  { st with channelContexts :=
      match mapGet channelId st.channelContexts with
      | none => st.channelContexts
      | some ctx =>
        mapSet channelId
          { ctx with followUpCount := ctx.followUpCount + 1, lastResponseTime := now }
          st.channelContexts }

/-- `resetFollowUpCount(channelId)` (lines 75-80). -/
def resetFollowUpCount (channelId : Nat) (st : CMState) : CMState :=
  { st with channelContexts :=
      match mapGet channelId st.channelContexts with
      | none => st.channelContexts
      | some ctx =>
        mapSet channelId { ctx with followUpCount := 0 } st.channelContexts }

/-- The runtime clock reaching time `t`: every scheduled `setTimeout`
callback whose fire time has arrived runs (each one is
`() => stopMonitoring(channelId)`), in scheduling order, and is consumed. -/
def advanceTo (t : Nat) (st : CMState) : CMState :=
  { channelContexts :=
      (st.pendingTimers.filter (fun p => decide (p.1 ≤ t))).foldl
        (fun m p => stopMonitoringMap p.2 m) st.channelContexts,
    pendingTimers := st.pendingTimers.filter (fun p => !decide (p.1 ≤ t)) }

/-- Follow-up count currently recorded for a channel (0 if absent). -/
def followUpCountOf (channelId : Nat) (st : CMState) : Nat :=
  match mapGet channelId st.channelContexts with
  | some ctx => ctx.followUpCount
  | none => 0

/-! ### map lemmas -/

theorem mapGet_mapSet_self (k : Nat) (v : ChannelContext) (m : CtxMap) :
    mapGet k (mapSet k v m) = some v := by
  induction m with
  | nil => simp [mapSet, mapGet]
  | cons hd tl ih =>
    obtain ⟨k0, v0⟩ := hd
    by_cases h : k0 = k
    · simp [mapSet, mapGet, h]
    · simp [mapSet, mapGet, h, ih]

/-! ## claude.ts -/

/-- A Discord message as far as the formatter inspects it: the author id and
the text content. -/
structure DiscordMsg where
  authorId : Nat
  content : String
deriving Repr, DecidableEq

/-- `formatDiscordMessages(messages, botId)` (claude.ts lines 392-400):
role is "assistant" exactly when the author is the bot itself, content is
the raw message text. -/
def formatDiscordMessages (messages : List DiscordMsg) (botId : Nat) : List ChatMsg :=
  messages.map fun msg =>
    ⟨if msg.authorId = botId then "assistant" else "user", .str msg.content⟩

/-! ## messageHandler.ts — tool execution -/

/-- The three custom tool names the `if`/`else if` chain of
`handleToolExecution` dispatches on (messageHandler.ts lines 267, 345, 405).
A tool call with any other name matches no branch and produces no result. -/
def handledToolName (n : String) : Bool :=
  n = "read_source_code" || n = "fetch_url" || n = "read_discord_messages"

/-- The error-text result content pushed by the per-tool `catch` blocks
(lines 340-343, 400-403, 551-554), with the thrown error stringified. -/
def errorText (name e : String) : String :=
  if name = "read_source_code" then "Error reading source code: " ++ e
  else if name = "fetch_url" then "Error fetching URL: " ++ e
  else "Error reading Discord messages: " ++ e

/-- The result record one handled tool call pushes: the content its
try-block produced, or — when the collaborator throws — the error text of
the catch block, in both cases correlated to the call's `tool_use_id`. -/
def toolOutcome (exec : ExecFn) (tc : ToolCall) : ToolResult :=
  match exec tc with
  | .ok s => ⟨tc.id, s⟩
  | .error e => ⟨tc.id, errorText tc.name e⟩

/-- Execute one tool call of a round: a handled tool pushes its outcome
record; an unhandled name matches no branch of the `if`/`else if` chain and
pushes nothing. -/
def execToolCall (exec : ExecFn) (tc : ToolCall) : Option ToolResult :=
  if handledToolName tc.name then some (toolOutcome exec tc) else none

/-- The `toolResults` list accumulated by the `for` loop over
`currentResponse.toolCalls` (lines 259-557), in original call order. -/
def runToolRound (exec : ExecFn) (tcs : List ToolCall) : List ToolResult :=
  tcs.filterMap (execToolCall exec)

/-- The assistant message carrying the round's tool calls, pushed at
lines 559-563 (`content: currentResponse.toolCalls`). -/
def assistantToolCallMsg (tcs : List ToolCall) : ChatMsg :=
  ⟨"assistant", .blocks (tcs.map fun tc => .toolUse tc.id tc.name)⟩

/-- The user message carrying the round's tool_result blocks, pushed at
lines 565-575. -/
def userToolResultMsg (rs : List ToolResult) : ChatMsg :=
  ⟨"user", .blocks (rs.map fun r => .toolResult r.toolUseId r.content)⟩

/-- The fallback answer returned when even the forced tools-disabled call
comes back in tool-call shape (line 614-616). -/
def maxRoundsFallback : String := "I encountered an error after multiple tool uses."

/-- `handleToolExecution(response, formattedMessages, …, maxRounds)`
(messageHandler.ts lines 228-617), written on the fuel
`maxRounds - roundCount` (the `while (roundCount < maxRounds)` guard).

Each loop iteration with a tool-call response executes the round's tools,
appends the assistant tool-call message and the user tool-result message to
the running list, and re-invokes the model with tools still enabled; a text
response returns immediately.  When the guard is exhausted the orchestrator
issues one final model call with tools disabled and returns its text (or
the fallback string).

Returns the final answer together with the list of model calls the function
itself issued, each recorded as (message list sent, enableTools flag). -/
def handleToolExecution (model : Model) (exec : ExecFn) :
    List ChatMsg → ModelResponse → Nat → String × List (List ChatMsg × Bool)
  | msgs, _cur, 0 =>
    (match model msgs false with
      | .text s => s
      | .tools _ => maxRoundsFallback,
     [(msgs, false)])
  | _msgs, .text s, _fuel + 1 => (s, [])
  | msgs, .tools tcs, fuel + 1 =>
    let results := runToolRound exec tcs
    let msgs2 := msgs ++ [assistantToolCallMsg tcs, userToolResultMsg results]
    let next := handleToolExecution model exec msgs2 (model msgs2 true) fuel
    (next.1, (msgs2, true) :: next.2)

/-- The source's round cap: the `maxRounds: number = 5` default, never
overridden by any caller. -/
def maxRoundsCap : Nat := 5

/-- A mention-triggered turn, restricted to its model traffic
(messageHandler.ts lines 199-218): one initial `generateResponse` call with
tools enabled, then `handleToolExecution` on its response.  Returns the
final answer and all model calls of the turn in order. -/
def mentionTurn (model : Model) (exec : ExecFn) (msgs : List ChatMsg) :
    String × List (List ChatMsg × Bool) :=
  let r0 := model msgs true
  let res := handleToolExecution model exec msgs r0 maxRoundsCap
  (res.1, (msgs, true) :: res.2)

/-! ## messageHandler.ts — the follow-up path of handleMessage -/

/-- `p` matches the front of `s` character by character. -/
def leadMatch : List Char → List Char → Bool
  | [], _ => true
  | _ :: _, [] => false
  | p :: ps, c :: cs => p = c && leadMatch ps cs

/-- JS `String.prototype.includes`: some suffix of `s` starts with `pat`. -/
def hasSub (pat : List Char) : List Char → Bool
  | [] => leadMatch pat []
  | c :: rest => leadMatch pat (c :: rest) || hasSub pat rest

/-- `response.includes("NO_RESPONSE")` on Lean strings. -/
def includesNoResponse (s : String) : Bool :=
  hasSub "NO_RESPONSE".data s.data

/-- Outcome of a follow-up turn: the ContextManager state afterwards, the
response string handed to `sendResponse` (none when the turn ended without
attempting a send), and whether the platform delivery succeeded. -/
structure FollowUpOutcome where
  state : CMState
  attempted : Option String
  delivered : Bool
deriving Repr, DecidableEq

/-- The follow-up (non-mention, monitored-channel) path of `handleMessage`
(messageHandler.ts lines 46-51 and 153-198), restricted to the
ContextManager state and the outbound response:

  * `shouldRespond` gates the turn (line 48), with its read-time
    side effect on the state;
  * the model is asked with the follow-up system prompt, tools enabled
    (lines 170-176);
  * a **string** reply containing `NO_RESPONSE` ends the turn silently
    (lines 178-183); a tool-call reply is never tested for the marker;
  * otherwise `incrementFollowUpCount` runs (line 186) **before**
    `handleToolExecution` and before `sendResponse` (lines 189-198);
  * `deliverOk` is the external outcome of `sendResponse`; a failed send
    raises into the catch of `handleMessage`, which changes no
    ContextManager state. -/
def handleFollowUpMessage (cap now : Nat) (model : Model) (exec : ExecFn)
    (channelId : Nat) (formattedMessages : List ChatMsg) (st : CMState)
    (deliverOk : Bool) : FollowUpOutcome :=
  let gate := shouldRespond cap channelId st
  if gate.1 = false then ⟨gate.2, none, false⟩
  else
    let response := model formattedMessages true
    let declined :=
      match response with
      | .text s => includesNoResponse s
      | .tools _ => false
    if declined then ⟨gate.2, none, false⟩
    else
      let st2 := incrementFollowUpCount now channelId gate.2
      let final := (handleToolExecution model exec formattedMessages response maxRoundsCap).1
      ⟨st2, some final, deliverOk⟩

/-! ## messageHandler.ts — splitMessage -/

/-- The whitespace class removed by JS `String.prototype.trim`
(ECMAScript WhiteSpace and LineTerminator code points). -/
def isJsWs (c : Char) : Bool :=
  c.toNat = 32 || c.toNat = 10 || c.toNat = 9 || c.toNat = 13 ||
  c.toNat = 11 || c.toNat = 12 || c.toNat = 0xa0 || c.toNat = 0x1680 ||
  (0x2000 ≤ c.toNat && c.toNat ≤ 0x200a) || c.toNat = 0x2028 ||
  c.toNat = 0x2029 || c.toNat = 0x202f || c.toNat = 0x205f ||
  c.toNat = 0x3000 || c.toNat = 0xfeff

/-- JS `.trim()`: drop the whitespace run at both ends. -/
def trimBoth (s : List Char) : List Char :=
  ((s.dropWhile isJsWs).reverse.dropWhile isJsWs).reverse

/-- The split character test of the backward search (line 669):
a space or a newline. -/
def isSplitChar (c : Char) : Bool := c = ' ' || c = '\n'

/-- The backward search of lines 668-673: starting from index `i`, walk
down while `i > 0` looking at `remaining[i]`; on the first space/newline
return `i + 1` (the split point including the separator), else give up. -/
def scanBack (s : List Char) : Nat → Option Nat
  | 0 => none
  | i + 1 =>
    if isSplitChar (s.getD (i + 1) 'x') then some (i + 2)
    else scanBack s i

/-- `splitAt` as computed by lines 665-681: the backward search from
`maxLength - 1`, defaulting to a forced split at `maxLength`. -/
def findSplit (s : List Char) (maxLength : Nat) : Nat :=
  match scanBack s (maxLength - 1) with
  | some v => v
  | none => maxLength

/-- The `while (remaining.length > 0)` loop of `splitMessage`
(messageHandler.ts lines 653-689), with fuel: each iteration either emits
the final chunk (when the remainder fits) or cuts a chunk at `splitAt` and
continues on `remaining.slice(splitAt).trim()`.  For `maxLength ≥ 1` every
iteration consumes at least one character, so fuel `remaining.length`
suffices (the source loop would not terminate for `maxLength = 0` on
non-whitespace input, which no caller does). -/
def splitGo : Nat → List Char → Nat → List (List Char)
  | 0, _, _ => []
  | _fuel + 1, [], _ => []
  | fuel + 1, c :: rest, maxLength =>
    if (c :: rest).length ≤ maxLength then [c :: rest]
    else
      let splitAt := findSplit (c :: rest) maxLength
      (c :: rest).take splitAt ::
        splitGo fuel (trimBoth ((c :: rest).drop splitAt)) maxLength

/-- `splitMessage(text, maxLength)`. -/
def splitMessage (text : List Char) (maxLength : Nat) : List (List Char) :=
  splitGo text.length text maxLength

/-- Interleaving used to state the chunking round trip: after each chunk,
one (possibly empty) whitespace run is reinserted. -/
def pairJoin : List (List Char) → List (List Char) → List Char
  | [], _ => []
  | c :: cs, [] => c ++ pairJoin cs []
  | c :: cs, w :: ws => c ++ (w ++ pairJoin cs ws)

theorem mapGet_mapSet_ne (k k' : Nat) (v : ChannelContext) (m : CtxMap)
    (h : k' ≠ k) : mapGet k (mapSet k' v m) = mapGet k m := by
  induction m with
  | nil => simp [mapSet, mapGet, h]
  | cons hd tl ih =>
    obtain ⟨k0, v0⟩ := hd
    simp only [mapSet]
    by_cases h0 : k0 = k'
    · subst h0
      simp [mapGet, h]
    · simp only [if_neg h0]
      by_cases h1 : k0 = k
      · simp [mapGet, h1]
      · simp [mapGet, h1, ih]

theorem followUpCountOf_stopMonitoring (c c' : Nat) (st : CMState) :
    followUpCountOf c (stopMonitoring c' st) = followUpCountOf c st := by
  unfold followUpCountOf stopMonitoring stopMonitoringMap
  cases hg : mapGet c' st.channelContexts with
  | none => simp
  | some ctx =>
    by_cases hc : c' = c
    · subst hc
      simp [hg, mapGet_mapSet_self]
    · simp [mapGet_mapSet_ne _ _ _ _ hc]

theorem followUpCountOf_increment (now c : Nat) (st : CMState)
    (ctx : ChannelContext) (h : mapGet c st.channelContexts = some ctx) :
    followUpCountOf c (incrementFollowUpCount now c st) = ctx.followUpCount + 1 := by
  unfold followUpCountOf incrementFollowUpCount
  simp [h, mapGet_mapSet_self]

/-- The outcome of `shouldRespond` when it allows the turn: the state is
untouched and the channel's context is monitoring and under the cap. -/
theorem shouldRespond_true_elim (cap c : Nat) (st : CMState)
    (h : (shouldRespond cap c st).1 = true) :
    (shouldRespond cap c st).2 = st ∧
    ∃ ctx, mapGet c st.channelContexts = some ctx ∧
      ctx.isMonitoring = true ∧ ctx.followUpCount < cap := by
  unfold shouldRespond at h ⊢
  cases hg : mapGet c st.channelContexts with
  | none => simp [hg] at h
  | some ctx =>
    cases hmon : ctx.isMonitoring with
    | false => simp [hg, hmon] at h
    | true =>
      by_cases hcap : cap ≤ ctx.followUpCount
      · simp [hg, hmon, hcap] at h
      · exact ⟨by simp [hg, hmon, hcap], ctx, rfl, hmon, by omega⟩

/-- `shouldRespond` never changes the recorded follow-up count, whatever
branch it takes. -/
theorem followUpCountOf_shouldRespond (cap c c' : Nat) (st : CMState) :
    followUpCountOf c' (shouldRespond cap c st).2 = followUpCountOf c' st := by
  unfold shouldRespond
  cases hg : mapGet c st.channelContexts with
  | none => simp
  | some ctx =>
    cases hmon : ctx.isMonitoring with
    | false => simp [hmon]
    | true =>
      by_cases hcap : cap ≤ ctx.followUpCount <;>
        simp [hmon, hcap, followUpCountOf_stopMonitoring]

/-- After `startMonitoring` and `n` follow-up increments, the channel's
context holds count `n` and is still monitoring. -/
theorem mapGet_after_increments (now timeoutMs incNow c : Nat) (st : CMState) :
    ∀ n, mapGet c ((incrementFollowUpCount incNow c)^[n]
        (startMonitoring now timeoutMs c st)).channelContexts
      = some ⟨if n = 0 then now else incNow, n, true⟩ := by
  intro n
  induction n with
  | zero => simp [startMonitoring, mapGet_mapSet_self]
  | succ m ih =>
    rw [Function.iterate_succ_apply']
    generalize hsm : (incrementFollowUpCount incNow c)^[m]
      (startMonitoring now timeoutMs c st) = sm at ih
    unfold incrementFollowUpCount
    simp [ih, mapGet_mapSet_self]

/-- C4: after a follow-up channel is activated and the configured cap's
worth of follow-up responses has been recorded, the next eligibility check
returns false and, as its side effect, deactivates the channel. -/
theorem shouldRespond_rejects_after_cap (cap timeoutMs now incNow c : Nat)
    (st : CMState) :
    (shouldRespond cap c ((incrementFollowUpCount incNow c)^[cap]
        (startMonitoring now timeoutMs c st))).1 = false ∧
    isMonitoringChannel c (shouldRespond cap c ((incrementFollowUpCount incNow c)^[cap]
        (startMonitoring now timeoutMs c st))).2 = false := by
  have hget := mapGet_after_increments now timeoutMs incNow c st cap
  unfold shouldRespond
  simp only [hget]
  constructor
  · simp
  · unfold isMonitoringChannel stopMonitoring stopMonitoringMap
    simp [hget, mapGet_mapSet_self]

/-- C2 evidence: `startMonitoring` never cancels the previously scheduled
deactivation callback, so re-activating a channel stacks a second pending
timer, and the first activation's timer still fires and deactivates the
channel before the re-activation's own timeout has elapsed.  Concretely:
activate channel 1 at t = 0 (timeout 30000 ms), re-activate it at
t = 10000, and let the clock reach t = 30000 — the stale timer fires and
the channel is no longer monitored, 10000 ms before the deadline the
re-activation installed. -/
theorem staleTimer_deactivates_reactivated_channel :
    (startMonitoring 10000 30000 1
        (advanceTo 10000 (startMonitoring 0 30000 1 ⟨[], []⟩))).pendingTimers.length = 2 ∧
    isMonitoringChannel 1
      (advanceTo 30000
        (startMonitoring 10000 30000 1
          (advanceTo 10000 (startMonitoring 0 30000 1 ⟨[], []⟩)))) = false ∧
    30000 < 10000 + 30000 := by
  refine ⟨rfl, rfl, by omega⟩

/-! ## tokenCounter theorems -/

/-- C5: trim is idempotent on within-budget input — if the estimated token
count of the whole sequence already fits the budget, `trimMessagesToTokenLimit`
returns the sequence unchanged, for every tokenizer and every preserved-tail
size. -/
theorem trimMessagesToTokenLimit_within_budget_unchanged (ct : TokenFn)
    (msgs : List ChatMsg) (budget k : Nat)
    (h : countMessageTokens ct msgs ≤ budget) :
    trimMessagesToTokenLimit ct msgs budget k = msgs := by
  unfold trimMessagesToTokenLimit
  by_cases hlen : msgs.length ≤ k
  · simp [hlen]
  · simp only [hlen, if_false]
    have hsplit : ∀ cut : Nat, msgs.take cut ++ msgs.drop cut = msgs :=
      fun cut => List.take_append_drop cut msgs
    have hkeep : ∀ cut : Nat,
        keepOlder ct budget (msgs.take cut).reverse
          (countMessageTokens ct (msgs.drop cut)) = msgs.take cut := by
      intro cut
      have hsum : countMessageTokens ct (msgs.drop cut) +
          ((msgs.take cut).reverse.map (msgTokens ct)).sum ≤ budget := by
        have happ := countMessageTokens_append ct (msgs.take cut) (msgs.drop cut)
        rw [hsplit cut] at happ
        rw [countMessageTokens_eq_sum ct (msgs.take cut)] at happ
        have : ((msgs.take cut).reverse.map (msgTokens ct)).sum
            = ((msgs.take cut).map (msgTokens ct)).sum := by
          rw [List.map_reverse, List.sum_reverse]
        omega
      rw [keepOlder_all ct budget _ _ hsum, List.reverse_reverse]
    simp only [hkeep]
    simp [hsplit]

/-- The output of trim always ends with the preserved tail
`messages.slice(-preserveLatest)` (for `k = 0` that tail is empty, and
`drop (length - 0)` is empty as well, so the statement is uniform). -/
theorem trimMessagesToTokenLimit_tail (ct : TokenFn) (msgs : List ChatMsg)
    (budget k : Nat) :
    ∃ pre, trimMessagesToTokenLimit ct msgs budget k
      = pre ++ msgs.drop (msgs.length - k) := by
  unfold trimMessagesToTokenLimit
  by_cases hlen : msgs.length ≤ k
  · refine ⟨[], ?_⟩
    simp [hlen, Nat.sub_eq_zero_of_le hlen]
  · simp only [hlen, if_false]
    by_cases hk : k = 0
    · subst hk
      refine ⟨msgs, ?_⟩
      simp [keepOlder]
    · simp only [hk, if_false]
      exact ⟨_, rfl⟩

/-- C10: the budget check of trim applies only to the messages older than
the preserved tail.  (i) A list of at most `preserveTail` messages is
returned unchanged whatever the budget; (ii) the preserved tail is never
shrunk — the output always ends with it verbatim; (iii) whenever the tail
alone already exceeds the budget, the output's estimate exceeds the budget
too: trim never fails and never trims the tail to meet the budget. -/
theorem trimMessagesToTokenLimit_tail_exempt_from_budget :
    (∀ (ct : TokenFn) (msgs : List ChatMsg) (budget k : Nat),
        msgs.length ≤ k → trimMessagesToTokenLimit ct msgs budget k = msgs) ∧
    (∀ (ct : TokenFn) (msgs : List ChatMsg) (budget k : Nat),
        ∃ pre, trimMessagesToTokenLimit ct msgs budget k
          = pre ++ msgs.drop (msgs.length - k)) ∧
    (∀ (ct : TokenFn) (msgs : List ChatMsg) (budget k : Nat),
        budget < countMessageTokens ct (msgs.drop (msgs.length - k)) →
        budget < countMessageTokens ct (trimMessagesToTokenLimit ct msgs budget k)) := by
  refine ⟨?_, trimMessagesToTokenLimit_tail, ?_⟩
  · intro ct msgs budget k hlen
    unfold trimMessagesToTokenLimit
    simp [hlen]
  · intro ct msgs budget k htail
    obtain ⟨pre, hp⟩ := trimMessagesToTokenLimit_tail ct msgs budget k
    rw [hp, countMessageTokens_append]
    omega

/-- Character-count tokenizer used for concrete witnesses. -/
def ctLen : TokenFn := fun s => s.length

/-- Concrete within-budget fixture for the trim witnesses. -/
def witMsgs : List ChatMsg := [⟨"user", .str "hi"⟩, ⟨"assistant", .str "hello"⟩]

/-- Witness for C5 at a concrete input: the two-message list estimates
within 100 tokens and trim returns it unchanged. -/
theorem trimMessagesToTokenLimit_within_budget_unchanged_witness :
    countMessageTokens ctLen witMsgs ≤ 100 ∧
    trimMessagesToTokenLimit ctLen witMsgs 100 5 = witMsgs :=
  ⟨by decide,
   trimMessagesToTokenLimit_within_budget_unchanged ctLen witMsgs 100 5 (by decide)⟩

/-- Concrete fixture whose preserved tail alone exceeds a 10-token budget. -/
def witMsgsBig : List ChatMsg :=
  [⟨"user", .str "a"⟩, ⟨"user", .str "asking something rather long here"⟩]

/-- Witness for C10 at concrete inputs: a short list is unchanged whatever
the budget, and with a tail exceeding the budget the output still exceeds
the budget. -/
theorem trimMessagesToTokenLimit_tail_exempt_from_budget_witness :
    (witMsgs.length ≤ 5 ∧ trimMessagesToTokenLimit ctLen witMsgs 0 5 = witMsgs) ∧
    (10 < countMessageTokens ctLen (witMsgsBig.drop (witMsgsBig.length - 1)) ∧
      10 < countMessageTokens ctLen (trimMessagesToTokenLimit ctLen witMsgsBig 10 1)) :=
  ⟨⟨by decide, trimMessagesToTokenLimit_tail_exempt_from_budget.1 ctLen witMsgs 0 5 (by decide)⟩,
   ⟨by decide, trimMessagesToTokenLimit_tail_exempt_from_budget.2.2 ctLen witMsgsBig 10 1 (by decide)⟩⟩

/-! ## follow-up turn theorems (C7, C9) -/

/-- A channel state with channel 1 activated and no follow-ups recorded. -/
def followUpSt0 : CMState := ⟨[(1, ⟨0, 0, true⟩)], [(30000, 1)]⟩

/-- Oracle: the model always answers with plain text. -/
def modelHello : Model := fun _ _ => .text "hello there"

/-- Oracle: the model declines with commentary around the sentinel. -/
def modelDecline : Model := fun _ _ =>
  .text "I could answer this. NO_RESPONSE is my choice though."

/-- Oracle: the model requests one tool round, then answers. -/
def modelOneTool : Model := fun _ enabled =>
  if enabled then .tools [⟨"call1", "fetch_url", "https://example.com"⟩]
  else .text "done"

/-- Oracle: tools always succeed. -/
def execOk : ExecFn := fun _ => .ok "tool output"

/-- C7 counterexample: a follow-up turn whose platform delivery fails has
still incremented the channel's follow-up count — the increment happens
before `sendResponse`, on the mere decision to respond. -/
theorem followUpCount_incremented_despite_failed_send :
    (handleFollowUpMessage 3 100 modelHello execOk 1 [] followUpSt0 false).delivered
      = false ∧
    followUpCountOf 1
      (handleFollowUpMessage 3 100 modelHello execOk 1 [] followUpSt0 false).state = 1 ∧
    followUpCountOf 1 followUpSt0 = 0 := by
  refine ⟨rfl, rfl, rfl⟩

/-- C7 amended: the follow-up counter is incremented exactly when the turn
decides to respond (the eligibility gate and the NO_RESPONSE check both
pass), regardless of whether the response is later delivered — a turn that
never reaches `sendResponse` leaves the count unchanged, and a turn that
attempts a send has already incremented it even when the send fails. -/
theorem followUpCount_tracks_decision_not_delivery (cap now : Nat)
    (model : Model) (exec : ExecFn) (c : Nat) (msgs : List ChatMsg)
    (st : CMState) (deliverOk : Bool) :
    ((handleFollowUpMessage cap now model exec c msgs st deliverOk).attempted = none →
      followUpCountOf c
        (handleFollowUpMessage cap now model exec c msgs st deliverOk).state
      = followUpCountOf c st) ∧
    (∀ r, (handleFollowUpMessage cap now model exec c msgs st deliverOk).attempted = some r →
      followUpCountOf c
        (handleFollowUpMessage cap now model exec c msgs st deliverOk).state
      = followUpCountOf c st + 1) := by
  unfold handleFollowUpMessage
  by_cases hgate : (shouldRespond cap c st).1 = false
  · simp [hgate, followUpCountOf_shouldRespond]
  · have hgate' : (shouldRespond cap c st).1 = true := by
      revert hgate; cases (shouldRespond cap c st).1 <;> simp
    obtain ⟨hst, ctx, hget, _, _⟩ := shouldRespond_true_elim cap c st hgate'
    by_cases hdecl : (match model msgs true with
        | .text s => includesNoResponse s
        | .tools _ => false) = true
    · simp [hgate, hdecl, followUpCountOf_shouldRespond]
    · have hcount : followUpCountOf c
          (incrementFollowUpCount now c (shouldRespond cap c st).2)
          = followUpCountOf c st + 1 := by
        rw [hst, followUpCountOf_increment now c st ctx hget]
        unfold followUpCountOf
        simp [hget]
      simp [hgate, hdecl, hcount]

/-- Witness for C7 amended at concrete inputs: a declined turn leaves the
count at 0, a delivered-failure turn has count 1. -/
theorem followUpCount_tracks_decision_not_delivery_witness :
    followUpCountOf 1
      (handleFollowUpMessage 3 100 modelDecline execOk 1 [] followUpSt0 true).state
      = followUpCountOf 1 followUpSt0 ∧
    followUpCountOf 1
      (handleFollowUpMessage 3 100 modelHello execOk 1 [] followUpSt0 false).state
      = followUpCountOf 1 followUpSt0 + 1 :=
  ⟨(followUpCount_tracks_decision_not_delivery 3 100 modelDecline execOk 1 [] followUpSt0 true).1
      (by decide),
   (followUpCount_tracks_decision_not_delivery 3 100 modelHello execOk 1 [] followUpSt0 false).2
      "hello there" (by decide)⟩

/-- C9: in follow-up mode, any string reply containing the substring
NO_RESPONSE — not only the literal sentinel — ends the turn silently: no
send is attempted and the follow-up count is unchanged, even when the reply
also carries substantive text; and a tool-call (non-string) reply is never
treated as a decline — when the channel is eligible it always leads to an
attempted send and a count increment. -/
theorem noResponse_substring_silences_followUp (cap now : Nat) (model : Model)
    (exec : ExecFn) (c : Nat) (msgs : List ChatMsg) (st : CMState)
    (deliverOk : Bool) :
    (∀ s, model msgs true = .text s → includesNoResponse s = true →
      (handleFollowUpMessage cap now model exec c msgs st deliverOk).attempted = none ∧
      followUpCountOf c
        (handleFollowUpMessage cap now model exec c msgs st deliverOk).state
        = followUpCountOf c st) ∧
    (∀ tcs, model msgs true = .tools tcs → (shouldRespond cap c st).1 = true →
      (handleFollowUpMessage cap now model exec c msgs st deliverOk).attempted.isSome
        = true ∧
      followUpCountOf c
        (handleFollowUpMessage cap now model exec c msgs st deliverOk).state
        = followUpCountOf c st + 1) := by
  constructor
  · intro s hresp hmark
    unfold handleFollowUpMessage
    by_cases hgate : (shouldRespond cap c st).1 = false
    · simp [hgate, followUpCountOf_shouldRespond]
    · simp [hgate, hresp, hmark, followUpCountOf_shouldRespond]
  · intro tcs hresp hgate
    have hgate' : ¬((shouldRespond cap c st).1 = false) := by simp [hgate]
    obtain ⟨hst, ctx, hget, _, _⟩ := shouldRespond_true_elim cap c st hgate
    unfold handleFollowUpMessage
    have hcount : followUpCountOf c
        (incrementFollowUpCount now c (shouldRespond cap c st).2)
        = followUpCountOf c st + 1 := by
      rw [hst, followUpCountOf_increment now c st ctx hget]
      unfold followUpCountOf
      simp [hget]
    simp [hgate', hresp, hcount]

/-- Witness for C9 at concrete inputs: the commentary-plus-sentinel reply
is silent (no attempt, count unchanged), and a tool-call reply on an
eligible channel attempts a send and increments the count. -/
theorem noResponse_substring_silences_followUp_witness :
    ((handleFollowUpMessage 3 100 modelDecline execOk 1 [] followUpSt0 true).attempted
        = none ∧
      followUpCountOf 1
        (handleFollowUpMessage 3 100 modelDecline execOk 1 [] followUpSt0 true).state
        = followUpCountOf 1 followUpSt0) ∧
    ((handleFollowUpMessage 3 100 modelOneTool execOk 1 [] followUpSt0 true).attempted.isSome
        = true ∧
      followUpCountOf 1
        (handleFollowUpMessage 3 100 modelOneTool execOk 1 [] followUpSt0 true).state
        = followUpCountOf 1 followUpSt0 + 1) :=
  ⟨(noResponse_substring_silences_followUp 3 100 modelDecline execOk 1 [] followUpSt0 true).1
      "I could answer this. NO_RESPONSE is my choice though." rfl (by decide),
   (noResponse_substring_silences_followUp 3 100 modelOneTool execOk 1 [] followUpSt0 true).2
      [⟨"call1", "fetch_url", "https://example.com"⟩] rfl (by decide)⟩

/-! ## round-cap theorems (C1) -/

/-- Upper bound on the model calls `handleToolExecution` issues: at most one
per loop iteration plus the single forced tools-disabled call. -/
theorem handleToolExecution_calls_le (model : Model) (exec : ExecFn) :
    ∀ fuel msgs r, (handleToolExecution model exec msgs r fuel).2.length ≤ fuel + 1 := by
  intro fuel
  induction fuel with
  | zero =>
    intro msgs r
    simp [handleToolExecution]
  | succ n ih =>
    intro msgs r
    cases r with
    | text s => simp [handleToolExecution]
    | tools tcs =>
      simp only [handleToolExecution, List.length_cons]
      have := ih (msgs ++ [assistantToolCallMsg tcs,
        userToolResultMsg (runToolRound exec tcs)]) (model (msgs ++ [assistantToolCallMsg tcs,
        userToolResultMsg (runToolRound exec tcs)]) true)
      omega

/-- When the model answers every tools-enabled call with tool calls, the
loop burns its whole fuel issuing tools-enabled calls and then issues
exactly one tools-disabled call. -/
theorem handleToolExecution_calls_saturated (model : Model) (exec : ExecFn)
    (h : ∀ m, ∃ tcs, model m true = .tools tcs) :
    ∀ fuel msgs tcs,
      (handleToolExecution model exec msgs (.tools tcs) fuel).2.length = fuel + 1 ∧
      ((handleToolExecution model exec msgs (.tools tcs) fuel).2.filter
          (fun cr => !cr.2)).length = 1 := by
  intro fuel
  induction fuel with
  | zero =>
    intro msgs tcs
    simp [handleToolExecution]
  | succ n ih =>
    intro msgs tcs
    obtain ⟨tcs2, htcs2⟩ := h (msgs ++ [assistantToolCallMsg tcs,
      userToolResultMsg (runToolRound exec tcs)])
    have := ih (msgs ++ [assistantToolCallMsg tcs,
      userToolResultMsg (runToolRound exec tcs)]) tcs2
    simp only [handleToolExecution, htcs2, List.length_cons, List.filter_cons]
    simp only [htcs2] at this
    simp [this.1, this.2]

/-- Oracle that always requests one more tool round whenever tools are
enabled, and answers in text when they are not. -/
def modelAlwaysTools : Model := fun _ enabled =>
  if enabled then .tools [⟨"c1", "fetch_url", "https://example.com"⟩]
  else .text "done"

/-- C1 counterexample: with the default cap of 5 rounds and a model that
keeps requesting tools, the turn issues 7 model calls in total — the
initial call, five tools-enabled re-invocations, and the forced
tools-disabled call — which exceeds cap + 1 = 6. -/
theorem mentionTurn_exceeds_cap_plus_one :
    (mentionTurn modelAlwaysTools execOk []).2.length = 7 ∧
    maxRoundsCap + 1 < 7 := by
  refine ⟨rfl, by decide⟩

/-- C1 amended: when the model returns tool-call responses on every
tools-enabled call, the turn issues exactly one additional tools-disabled
model call (and the answer is a string by construction), but the turn's
total model-call count is exactly cap + 2 — the initial call, cap
tools-enabled re-invocations inside the loop, and the forced final call —
and cap + 2 is also the bound for every oracle. -/
theorem mentionTurn_call_budget (model : Model) (exec : ExecFn)
    (msgs : List ChatMsg) (h : ∀ m, ∃ tcs, model m true = .tools tcs) :
    (mentionTurn model exec msgs).2.length = maxRoundsCap + 2 ∧
    ((mentionTurn model exec msgs).2.filter (fun cr => !cr.2)).length = 1 ∧
    (∀ (model2 : Model) (exec2 : ExecFn) (msgs2 : List ChatMsg),
      (mentionTurn model2 exec2 msgs2).2.length ≤ maxRoundsCap + 2) := by
  obtain ⟨tcs0, htcs0⟩ := h msgs
  have hsat := handleToolExecution_calls_saturated model exec h maxRoundsCap msgs tcs0
  refine ⟨?_, ?_, ?_⟩
  · simp only [mentionTurn, htcs0, List.length_cons]
    omega
  · simp only [mentionTurn, htcs0, List.filter_cons]
    simp [hsat.2]
  · intro model2 exec2 msgs2
    have := handleToolExecution_calls_le model2 exec2 maxRoundsCap msgs2
      (model2 msgs2 true)
    simp only [mentionTurn, List.length_cons]
    omega

/-- Witness for C1 amended at the concrete always-tools oracle. -/
theorem mentionTurn_call_budget_witness :
    (mentionTurn modelAlwaysTools execOk []).2.length = maxRoundsCap + 2 ∧
    ((mentionTurn modelAlwaysTools execOk []).2.filter (fun cr => !cr.2)).length = 1 :=
  ⟨(mentionTurn_call_budget modelAlwaysTools execOk []
      (fun _m => ⟨[⟨"c1", "fetch_url", "https://example.com"⟩], rfl⟩)).1,
   (mentionTurn_call_budget modelAlwaysTools execOk []
      (fun _m => ⟨[⟨"c1", "fetch_url", "https://example.com"⟩], rfl⟩)).2.1⟩

/-! ## fault-isolation theorems (C6) -/

/-- Default result used for positional indexing of a round's results. -/
def dfltResult : ToolResult := ⟨"", ""⟩

/-- Whether the collaborator throws on this call. -/
def isExecError (exec : ExecFn) (tc : ToolCall) : Bool :=
  match exec tc with
  | .ok _ => false
  | .error _ => true

theorem toolOutcome_id (exec : ExecFn) (tc : ToolCall) :
    (toolOutcome exec tc).toolUseId = tc.id := by
  cases h : exec tc <;> simp [toolOutcome, h]

theorem runToolRound_all_handled (exec : ExecFn) (tcs : List ToolCall)
    (h : ∀ tc ∈ tcs, handledToolName tc.name = true) :
    runToolRound exec tcs = tcs.map (toolOutcome exec) := by
  induction tcs with
  | nil => rfl
  | cons tc rest ih =>
    have htc := h tc (by simp)
    have hrest := ih (fun x hx => h x (by simp [hx]))
    simp [runToolRound, execToolCall, htc] at hrest ⊢
    exact hrest

/-- C6: tool executions within a round are independently fault-isolated.
For a model response carrying three handled tool calls of which exactly one
(the `i`-th) throws, the round still produces a result list of length 3;
every entry is correlated positionally to its call's id; the failing
position carries the catch-block error text for its exception; the other
two carry the successful payloads; and the orchestrator proceeds to issue
at least one further model call instead of aborting the turn. -/
theorem toolRound_fault_isolated (model : Model) (exec : ExecFn)
    (msgs : List ChatMsg) (t1 t2 t3 : ToolCall) (i : Fin 3)
    (hh : handledToolName t1.name = true ∧ handledToolName t2.name = true ∧
      handledToolName t3.name = true)
    (hfail : ∀ j : Fin 3, isExecError exec ([t1, t2, t3].get j) = true ↔ j = i) :
    (runToolRound exec [t1, t2, t3]).length = 3 ∧
    (∀ j : Fin 3, ((runToolRound exec [t1, t2, t3]).getD j.val dfltResult).toolUseId
      = ([t1, t2, t3].get j).id) ∧
    (∃ e, exec ([t1, t2, t3].get i) = .error e ∧
      ((runToolRound exec [t1, t2, t3]).getD i.val dfltResult).content
        = errorText ([t1, t2, t3].get i).name e) ∧
    (∀ j : Fin 3, j ≠ i → ∃ s, exec ([t1, t2, t3].get j) = .ok s ∧
      ((runToolRound exec [t1, t2, t3]).getD j.val dfltResult).content = s) ∧
    1 ≤ (handleToolExecution model exec msgs (.tools [t1, t2, t3]) maxRoundsCap).2.length := by
  have hrun : runToolRound exec [t1, t2, t3]
      = [toolOutcome exec t1, toolOutcome exec t2, toolOutcome exec t3] := by
    rw [runToolRound_all_handled exec _ (by
      intro tc htc
      simp only [List.mem_cons, List.not_mem_nil, or_false] at htc
      rcases htc with h | h | h <;> subst h
      · exact hh.1
      · exact hh.2.1
      · exact hh.2.2)]
    rfl
  refine ⟨by rw [hrun]; rfl, ?_, ?_, ?_, ?_⟩
  · intro j
    fin_cases j <;> simp [hrun, toolOutcome_id]
  · have hferr := (hfail i).mpr rfl
    fin_cases i
    · cases hx : exec t1 with
      | ok s => simp [isExecError, hx] at hferr
      | error e => exact ⟨e, hx, by simp [hrun, toolOutcome, hx]⟩
    · cases hx : exec t2 with
      | ok s => simp [isExecError, hx] at hferr
      | error e => exact ⟨e, hx, by simp [hrun, toolOutcome, hx]⟩
    · cases hx : exec t3 with
      | ok s => simp [isExecError, hx] at hferr
      | error e => exact ⟨e, hx, by simp [hrun, toolOutcome, hx]⟩
  · intro j hj
    have hne : ¬(isExecError exec ([t1, t2, t3].get j) = true) :=
      fun hme => hj ((hfail j).mp hme)
    fin_cases j
    · cases hx : exec t1 with
      | error e => exact absurd (by simp [isExecError, hx]) hne
      | ok s => exact ⟨s, hx, by simp [hrun, toolOutcome, hx]⟩
    · cases hx : exec t2 with
      | error e => exact absurd (by simp [isExecError, hx]) hne
      | ok s => exact ⟨s, hx, by simp [hrun, toolOutcome, hx]⟩
    · cases hx : exec t3 with
      | error e => exact absurd (by simp [isExecError, hx]) hne
      | ok s => exact ⟨s, hx, by simp [hrun, toolOutcome, hx]⟩
  · show 1 ≤ (handleToolExecution model exec msgs (.tools [t1, t2, t3]) maxRoundsCap).2.length
    simp [maxRoundsCap, handleToolExecution]

/-- Three handled tool calls for the C6 witness. -/
def witT1 : ToolCall := ⟨"id1", "read_source_code", ""⟩

def witT2 : ToolCall := ⟨"id2", "fetch_url", "https://example.com"⟩

def witT3 : ToolCall := ⟨"id3", "read_discord_messages", ""⟩

/-- Executor that throws on the fetch_url call only. -/
def execMidFails : ExecFn := fun tc =>
  if tc.name = "fetch_url" then .error "boom" else .ok "payload"

/-- Witness for C6 at concrete inputs: three calls, the middle one throws,
the round still yields three results with the middle one an error text. -/
theorem toolRound_fault_isolated_witness :
    (runToolRound execMidFails [witT1, witT2, witT3]).length = 3 ∧
    (∃ e, execMidFails ([witT1, witT2, witT3].get (1 : Fin 3)) = .error e ∧
      ((runToolRound execMidFails [witT1, witT2, witT3]).getD 1 dfltResult).content
        = errorText ([witT1, witT2, witT3].get (1 : Fin 3)).name e) ∧
    1 ≤ (handleToolExecution modelOneTool execMidFails []
      (.tools [witT1, witT2, witT3]) maxRoundsCap).2.length := by
  have h := toolRound_fault_isolated modelOneTool execMidFails [] witT1 witT2 witT3
    (1 : Fin 3) (by refine ⟨?_, ?_, ?_⟩ <;> decide)
    (by intro j; fin_cases j <;> simp [isExecError, execMidFails, witT1, witT2, witT3])
  exact ⟨h.1, h.2.2.1, h.2.2.2.2⟩

/-! ## role-alternation theorems (C8) -/

/-- Content that is a tool-call block list (the assistant half of a tool
exchange). -/
def isToolCallContent : MsgContent → Bool
  | .blocks bs => bs.all fun b =>
      match b with
      | .toolUse _ _ => true
      | _ => false
  | _ => false

/-- Content that is a tool-result block list (the user half of a tool
exchange). -/
def isToolResultContent : MsgContent → Bool
  | .blocks bs => bs.all fun b =>
      match b with
      | .toolResult _ _ => true
      | _ => false
  | _ => false

/-- An adjacent pair forming a legitimate tool exchange: assistant
tool-calls immediately followed by user tool-results. -/
def toolPairOk (a b : ChatMsg) : Bool :=
  a.role = "assistant" && isToolCallContent a.content &&
  b.role = "user" && isToolResultContent b.content

/-- The alternation invariant C8 claims of every running message list:
adjacent roles differ, except across a tool exchange pair. -/
def strictAltExceptToolPairs : List ChatMsg → Bool
  | [] => true
  | [_] => true
  | a :: b :: rest =>
    (decide (a.role ≠ b.role) || toolPairOk a b) && strictAltExceptToolPairs (b :: rest)

/-- C8 counterexample: the running list the handler builds from history is
role-tagged purely by author, so two consecutive messages from two
different non-bot users both become role "user" — the list passed to the
model violates the claimed alternation invariant (and contains no tool
blocks that could excuse it). -/
theorem formatDiscordMessages_not_alternating :
    strictAltExceptToolPairs
      (formatDiscordMessages [⟨1, "hi bot"⟩, ⟨2, "hello all"⟩] 0) = false := by
  decide

/-- C8 amended: the tool exchange itself is appended atomically — after a
tool round, the very next model call receives the previous list extended by
exactly the assistant tool-call message immediately followed by the user
tool-result message, and that pair satisfies the tool-pair shape — but the
base list is role-tagged by author only (bot messages become "assistant",
every other author becomes "user"), with no alternation guarantee. -/
theorem toolPair_appended_atomically (model : Model) (exec : ExecFn)
    (msgs : List ChatMsg) (tcs : List ToolCall) (fuel : Nat) :
    ((handleToolExecution model exec msgs (.tools tcs) (fuel + 1)).2.headD
        (msgs, true)).1
      = msgs ++ [assistantToolCallMsg tcs,
          userToolResultMsg (runToolRound exec tcs)] ∧
    toolPairOk (assistantToolCallMsg tcs)
      (userToolResultMsg (runToolRound exec tcs)) = true ∧
    (∀ (dmsgs : List DiscordMsg) (botId : Nat),
      (formatDiscordMessages dmsgs botId).map ChatMsg.role
        = dmsgs.map (fun m => if m.authorId = botId then "assistant" else "user")) := by
  refine ⟨rfl, ?_, ?_⟩
  · simp only [toolPairOk, assistantToolCallMsg, userToolResultMsg,
      isToolCallContent, isToolResultContent]
    simp [List.all_eq_true]
  · intro dmsgs botId
    simp [formatDiscordMessages]

/-! ## chunking theorems (C3) -/

theorem trimBoth_decomp (s : List Char) :
    ∃ l r, (∀ c ∈ l, isJsWs c = true) ∧ (∀ c ∈ r, isJsWs c = true) ∧
      s = l ++ trimBoth s ++ r := by
  refine ⟨s.takeWhile isJsWs,
    ((s.dropWhile isJsWs).reverse.takeWhile isJsWs).reverse, ?_, ?_, ?_⟩
  · exact fun c hc => List.mem_takeWhile_imp hc
  · intro c hc
    rw [List.mem_reverse] at hc
    exact List.mem_takeWhile_imp hc
  · have hd : s.dropWhile isJsWs
        = trimBoth s ++ ((s.dropWhile isJsWs).reverse.takeWhile isJsWs).reverse := by
      unfold trimBoth
      calc s.dropWhile isJsWs = (s.dropWhile isJsWs).reverse.reverse := by
            rw [List.reverse_reverse]
        _ = (((s.dropWhile isJsWs).reverse.takeWhile isJsWs)
              ++ ((s.dropWhile isJsWs).reverse.dropWhile isJsWs)).reverse := by
            rw [List.takeWhile_append_dropWhile]
        _ = ((s.dropWhile isJsWs).reverse.dropWhile isJsWs).reverse
              ++ ((s.dropWhile isJsWs).reverse.takeWhile isJsWs).reverse := by
            rw [List.reverse_append]
    conv_lhs => rw [← List.takeWhile_append_dropWhile (p := isJsWs) (l := s), hd]
    simp [List.append_assoc]

theorem trimBoth_length_le (s : List Char) : (trimBoth s).length ≤ s.length := by
  unfold trimBoth
  have h1 : ((s.dropWhile isJsWs).reverse.dropWhile isJsWs).length
      ≤ (s.dropWhile isJsWs).reverse.length :=
    (List.dropWhile_sublist _).length_le
  have h2 : (s.dropWhile isJsWs).length ≤ s.length :=
    (List.dropWhile_sublist _).length_le
  simp only [List.length_reverse] at h1 ⊢
  omega

theorem scanBack_le (s : List Char) : ∀ m v, scanBack s m = some v → v ≤ m + 1 := by
  intro m
  induction m with
  | zero => intro v h; simp [scanBack] at h
  | succ i ih =>
    intro v h
    rw [scanBack] at h
    split at h
    · simp only [Option.some.injEq] at h
      omega
    · have := ih v h
      omega

theorem scanBack_ge_one (s : List Char) : ∀ m v, scanBack s m = some v → 1 ≤ v := by
  intro m
  induction m with
  | zero => intro v h; simp [scanBack] at h
  | succ i ih =>
    intro v h
    rw [scanBack] at h
    split at h
    · simp only [Option.some.injEq] at h
      omega
    · exact ih v h

theorem findSplit_le (s : List Char) (limit : Nat) : findSplit s limit ≤ limit := by
  unfold findSplit
  cases limit with
  | zero => simp [scanBack]
  | succ l =>
    simp only [Nat.succ_sub_one]
    cases h : scanBack s l with
    | none => simp
    | some v =>
      have := scanBack_le s l v h
      simpa using this

theorem findSplit_pos (s : List Char) (limit : Nat) (h : 1 ≤ limit) :
    1 ≤ findSplit s limit := by
  unfold findSplit
  cases hs : scanBack s (limit - 1) with
  | none => simpa using h
  | some v => simpa using scanBack_ge_one s _ v hs

/-- Every chunk splitMessage emits fits within the limit. -/
theorem splitGo_chunk_le :
    ∀ (fuel : Nat) (remaining : List Char) (limit : Nat) (c : List Char),
      c ∈ splitGo fuel remaining limit → c.length ≤ limit := by
  intro fuel
  induction fuel with
  | zero => intro remaining limit c h; simp [splitGo] at h
  | succ n ih =>
    intro remaining limit c h
    match remaining with
    | [] => simp [splitGo] at h
    | x :: rest =>
      rw [splitGo] at h
      split at h
      · rename_i hlen
        simp only [List.mem_singleton] at h
        subst h
        exact hlen
      · rename_i hlen
        rcases List.mem_cons.mp h with h | h
        · subst h
          have h1 : ((x :: rest).take (findSplit (x :: rest) limit)).length
              ≤ findSplit (x :: rest) limit := by
            rw [List.length_take]
            exact Nat.min_le_left _ _
          exact le_trans h1 (findSplit_le _ _)
        · exact ih _ _ _ h

/-- Reconstruction invariant of the chunking loop: for fuel covering the
remainder's length and a positive limit, the chunks interleaved with
whitespace runs (one run after each chunk) rebuild the remainder followed
by any whitespace already trimmed off behind it. -/
theorem splitGo_reconstruct (limit : Nat) (hl : 1 ≤ limit) :
    ∀ (fuel : Nat) (remaining r : List Char), remaining.length ≤ fuel →
      (∀ c ∈ r, isJsWs c = true) →
      (remaining = [] ∧ splitGo fuel remaining limit = []) ∨
      (∃ wss, wss.length = (splitGo fuel remaining limit).length ∧
        (∀ w ∈ wss, ∀ c ∈ w, isJsWs c = true) ∧
        pairJoin (splitGo fuel remaining limit) wss = remaining ++ r) := by
  intro fuel
  induction fuel with
  | zero =>
    intro remaining r hfuel _hr
    left
    have hnil : remaining = [] := List.length_eq_zero.mp (Nat.le_zero.mp hfuel)
    exact ⟨hnil, by simp [hnil, splitGo]⟩
  | succ n ih =>
    intro remaining r hfuel hr
    match remaining with
    | [] => exact Or.inl ⟨rfl, by simp [splitGo]⟩
    | x :: rest =>
      right
      by_cases hlen : (x :: rest).length ≤ limit
      · refine ⟨[r], ?_, ?_, ?_⟩
        · rw [splitGo, if_pos hlen]
          rfl
        · intro w hw
          simp only [List.mem_singleton] at hw
          subst hw
          exact hr
        · rw [splitGo, if_pos hlen]
          simp [pairJoin]
      · have hsgo : splitGo (n + 1) (x :: rest) limit
            = (x :: rest).take (findSplit (x :: rest) limit) ::
              splitGo n (trimBoth ((x :: rest).drop (findSplit (x :: rest) limit))) limit := by
          rw [splitGo, if_neg hlen]
        have hsp1 : 1 ≤ findSplit (x :: rest) limit := findSplit_pos _ _ hl
        obtain ⟨l, rr, hlws, hrrws, hdecomp⟩ :=
          trimBoth_decomp ((x :: rest).drop (findSplit (x :: rest) limit))
        have hcore_len :
            (trimBoth ((x :: rest).drop (findSplit (x :: rest) limit))).length ≤ n := by
          have h1 := trimBoth_length_le ((x :: rest).drop (findSplit (x :: rest) limit))
          have h2 : ((x :: rest).drop (findSplit (x :: rest) limit)).length
              = (x :: rest).length - findSplit (x :: rest) limit := List.length_drop _ _
          have h3 : (x :: rest).length ≤ n + 1 := hfuel
          omega
        have hrrr : ∀ c ∈ rr ++ r, isJsWs c = true := by
          intro c hc
          rcases List.mem_append.mp hc with h | h
          · exact hrrws c h
          · exact hr c h
        have hxsplit : (x :: rest)
            = (x :: rest).take (findSplit (x :: rest) limit)
              ++ (l ++ trimBoth ((x :: rest).drop (findSplit (x :: rest) limit)) ++ rr) := by
          conv_lhs => rw [← List.take_append_drop (findSplit (x :: rest) limit) (x :: rest)]
          rw [← hdecomp]
        rcases ih (trimBoth ((x :: rest).drop (findSplit (x :: rest) limit))) (rr ++ r)
            hcore_len hrrr with ⟨hcn, hsg⟩ | ⟨wss, hwlen, hwws, hwjoin⟩
        · refine ⟨[l ++ rr ++ r], ?_, ?_, ?_⟩
          · rw [hsgo, hsg]
            rfl
          · intro w hw
            simp only [List.mem_singleton] at hw
            subst hw
            intro c hc
            rcases List.mem_append.mp hc with hcc | hcc
            · rcases List.mem_append.mp hcc with hd | hd
              · exact hlws c hd
              · exact hrrws c hd
            · exact hr c hcc
          · rw [hsgo, hsg]
            simp only [pairJoin]
            conv_rhs => rw [hxsplit, hcn]
            simp [List.append_assoc]
        · refine ⟨l :: wss, ?_, ?_, ?_⟩
          · rw [hsgo]
            simp [hwlen]
          · intro w hw
            rcases List.mem_cons.mp hw with hww | hww
            · subst hww; exact hlws
            · exact hwws w hww
          · rw [hsgo]
            simp only [pairJoin]
            rw [hwjoin]
            conv_rhs => rw [hxsplit]
            simp [List.append_assoc]

/-- C3 amended: for every text and positive limit, every chunk of
`splitMessage` has length at most the limit, and the original text is
reconstructed by concatenating the chunks with one (possibly empty)
whitespace run reinserted after each chunk — the runs between chunks are
the stripped leading whitespace of the continuation chunks, and the run
after the final chunk is the text's stripped trailing whitespace.  No
non-whitespace character is dropped or duplicated. -/
theorem splitMessage_reconstructs (text : List Char) (limit : Nat)
    (hl : 1 ≤ limit) :
    (∀ c ∈ splitMessage text limit, c.length ≤ limit) ∧
    ∃ wss, wss.length = (splitMessage text limit).length ∧
      (∀ w ∈ wss, ∀ c ∈ w, isJsWs c = true) ∧
      pairJoin (splitMessage text limit) wss = text := by
  constructor
  · intro c hc
    exact splitGo_chunk_le text.length text limit c hc
  · rcases splitGo_reconstruct limit hl text.length text [] (le_refl _)
        (by intro c hc; simp at hc) with ⟨hnil, hsg⟩ | ⟨wss, hwlen, hwws, hwjoin⟩
    · refine ⟨[], ?_, ?_, ?_⟩
      · simp [splitMessage, hsg]
      · intro w hw; simp at hw
      · simp [splitMessage, hsg, pairJoin, hnil]
    · refine ⟨wss, hwlen, hwws, ?_⟩
      simpa using hwjoin

/-- Witness for C3 amended at a concrete input. -/
theorem splitMessage_reconstructs_witness :
    (∀ c ∈ splitMessage "hi yo".data 3, c.length ≤ 3) ∧
    ∃ wss, wss.length = (splitMessage "hi yo".data 3).length ∧
      (∀ w ∈ wss, ∀ c ∈ w, isJsWs c = true) ∧
      pairJoin (splitMessage "hi yo".data 3) wss = "hi yo".data :=
  splitMessage_reconstructs "hi yo".data 3 (by decide)

/-- C3 counterexample: `splitMessage` trims the remainder with JS `trim()`,
which also removes **trailing** whitespace, so on `"aa b "` with limit 2 the
chunks are `["aa", "b"]` and no reinsertion of whitespace between the
chunks (the claimed leading-whitespace stripping of continuation chunks)
can rebuild the original text — its trailing space has been dropped. -/
theorem splitMessage_trailing_whitespace_lost :
    splitMessage "aa b ".data 2 = ["aa".data, "b".data] ∧
    ¬ ∃ ws : List Char, (∀ c ∈ ws, isJsWs c = true) ∧
        "aa".data ++ ws ++ "b".data = "aa b ".data := by
  constructor
  · rfl
  · rintro ⟨ws, _hws, h⟩
    have hlen := congrArg List.length h
    simp at hlen
    rcases ws with _ | ⟨w1, _ | ⟨w2, _ | ⟨w3, t⟩⟩⟩ <;> simp_all
